import Mathlib

/-!
Verification of the Dice auto-apply bot (`scrapeandapply.py`).

The development shallowly embeds the program's core:

* the apply workflow `easy_apply_on_job` together with its capability
  check `has_easy_apply` (Playwright timeouts and other exceptions are
  modelled as explicit `Except` errors; the browser page is modelled by
  an environment record that fixes what every wait / locate / click
  performed by the code would observe);
* the listing scraper `scrape_job_listings` with `get_total_pages`
  (HTML parsing is abstracted to the data the code extracts: the
  aria-label of the pagination section and the anchors of each result
  page; Python string primitives used by the code — `str.replace`,
  `str.split()`, `str.strip()`, `int()` — are re-implemented on
  character lists so that everything evaluates inside the kernel);
* the seen-links ledger `load_seen_links` / `append_seen_link`, with
  the ledger file modelled byte-faithfully as the `String` contents of
  `seen_links.txt`;
* the orchestrator `main` (candidate selection and the per-candidate
  loop that appends every processed link to the ledger).
-/

/-! ## Python string primitives, re-implemented on character lists -/

/-- Substring test on character lists: `hasSubstr pat s` is true iff
`pat` occurs contiguously inside `s` (the semantics of Python's
`pat in s` and of Playwright's `has_text` after lowering case). -/
def hasSubstr : List Char → List Char → Bool
  | pat, [] => pat.isEmpty
  | pat, c :: cs => pat.isPrefixOf (c :: cs) || hasSubstr pat cs

/-- Lower-cased character data of a string (Python `str.lower()` for the
ASCII range, which is all the program compares). -/
def lowerData (s : String) : List Char := s.data.map Char.toLower

/-- Python `str.strip()` with no argument: drop whitespace from both ends. -/
def stripWs (cs : List Char) : List Char :=
  ((cs.dropWhile Char.isWhitespace).reverse.dropWhile Char.isWhitespace).reverse

/-- Worker for `pyReplace`.  `skip` counts characters still to drop
because they belong to a pattern occurrence that was already replaced;
at `skip = 0` a fresh match of `pat` emits `rep` and schedules the
remaining `pat.length - 1` matched characters for dropping.  Structural
recursion on the character list, so it evaluates in the kernel. -/
def pyReplaceAux (pat rep : List Char) : Nat → List Char → List Char
  | _, [] => []
  | skip + 1, _ :: cs => pyReplaceAux pat rep skip cs
  | 0, c :: cs =>
    if !pat.isEmpty && pat.isPrefixOf (c :: cs) then
      rep ++ pyReplaceAux pat rep (pat.length - 1) cs
    else
      c :: pyReplaceAux pat rep 0 cs

/-- Python `str.replace pat rep`: replace each non-overlapping occurrence
of `pat`, scanning left to right.  The program only calls it with the
non-empty patterns `"Page"` and `"of"`, so the empty-pattern corner of
Python's semantics is irrelevant and the function returns its input there. -/
def pyReplace (pat rep : List Char) (s : List Char) : List Char :=
  pyReplaceAux pat rep 0 s

/-- Python `str.split()` with no argument: split on runs of whitespace,
discarding empty pieces.  Implemented as split-at-every-whitespace-char
followed by dropping empties, which is equivalent. -/
def splitAtWs : List Char → List (List Char)
  | [] => [[]]
  | c :: cs =>
    if c.isWhitespace then [] :: splitAtWs cs
    else
      match splitAtWs cs with
      | [] => [[c]]
      | l :: ls => (c :: l) :: ls

/-- Tokens of a string under Python `str.split()`. -/
def pyTokens (s : List Char) : List (List Char) :=
  (splitAtWs s).filter (fun t => !t.isEmpty)

/-- Value of a list of decimal digits. -/
def digitsVal (ds : List Char) : Nat :=
  ds.foldl (fun a c => a * 10 + (c.toNat - '0'.toNat)) 0

/-- Parse a non-empty all-digit token. -/
def parseDigits? (ds : List Char) : Option Nat :=
  if !ds.isEmpty && ds.all Char.isDigit then some (digitsVal ds) else none

/-- Python `int(s)` on a whitespace-free token: optional sign followed by
decimal digits, `none` when the call would raise `ValueError`.
(Python also accepts underscore digit grouping and non-ASCII digits;
those never arise from the labels the scraper reads and are not modelled.) -/
def parseInt? (s : List Char) : Option Int :=
  match s with
  | [] => none
  | c :: rest =>
    if c = '-' then (parseDigits? rest).map (fun n => -(n : Int))
    else if c = '+' then (parseDigits? rest).map (fun n => (n : Int))
    else (parseDigits? (c :: rest)).map (fun n => (n : Int))

/-! ## The seen-links ledger (`load_seen_links` / `append_seen_link`)

The ledger file `seen_links.txt` is modelled by its full `String`
contents.  `append_seen_link` opens the file in append mode and writes
`link + "\n"`; `load_seen_links` iterates over the lines of the file,
strips each one and keeps the non-empty results as a set (modelled as a
list used only through membership).  A missing file reads as empty
contents. -/

/-- Split a character list at every newline.  `splitNl cs` are exactly the
lines Python's file iteration yields (with the trailing `"\n"` removed;
`load_seen_links` strips each line anyway, so this is equivalent). -/
def splitNl : List Char → List (List Char)
  | [] => [[]]
  | c :: cs =>
    if c = '\n' then [] :: splitNl cs
    else
      match splitNl cs with
      | [] => [[c]]
      | l :: ls => (c :: l) :: ls

/-- `load_seen_links` (source lines 57–62): the set of stripped non-empty
lines of the ledger file contents. -/
def load_seen_links (content : String) : List String :=
  ((splitNl content.data).map stripWs).filterMap
    (fun cs => if cs.isEmpty then none else some (String.mk cs))

/-- `append_seen_link` (source lines 65–68): append `link + "\n"` to the
ledger file contents. -/
def append_seen_link (link : String) (content : String) : String :=
  content ++ link ++ "\n"

/-! ## The apply workflow (`has_easy_apply`, `easy_apply_on_job`)

The browser page opened on one posting is abstracted to what the code
observes of it: whether `page.goto` raises; whether the
`apply-button-wc` region appears within its 30s wait and, if so, the
list of `button.btn-primary` elements inside it (each with its text,
its visibility, and whether `inner_text(timeout=1000)` on it raises);
whether each subsequent wait / click / upload step raises; and, per
step-loop iteration, whether the Submit and Next buttons are visible
and whether clicking them raises. -/

/-- A Playwright failure: `timeout` is `PWTimeoutError`, `other` is any
other exception. -/
inductive PwErr
  | timeout
  | other
  deriving DecidableEq, Repr

/-- One `button.btn-primary` element inside the `apply-button-wc` host
region.  `innerTextErr` records whether `inner_text(timeout=1000)` on
it raises (that exception is caught and the button skipped in the
fallback scan). -/
structure Button where
  text : String
  visible : Bool
  innerTextErr : Bool
  deriving DecidableEq, Repr

/-- Playwright `locator(_, has_text="Easy apply")` element predicate:
case-insensitive substring match, applied to `(index, button)` pairs so
that each match keeps its identity inside the host region. -/
def easyPred (p : Nat × Button) : Bool :=
  hasSubstr (lowerData "Easy apply") (lowerData p.2.text)

/-- The `btn-primary` buttons matching `has_text="Easy apply"`, with
their indices in the host region. -/
def easyMatches (btns : List Button) : List (Nat × Button) :=
  btns.enum.filter easyPred

/-- One probe of the fallback scan: `inner_text` succeeded and the
lowered text contains `"apply"` (source lines 172–178). -/
def fallbackHit (b : Button) : Bool :=
  !b.innerTextErr && hasSubstr "apply".data (lowerData b.text)

/-- The fallback scan of `has_easy_apply`: at most the first three
`btn-primary` buttons of the region are probed. -/
def fallbackScan (btns : List Button) : Bool :=
  (List.range (min 3 btns.length)).any (fun i =>
    match btns[i]? with
    | none => false
    | some b => fallbackHit b)

/-- `has_easy_apply` (source lines 155–179).  `region = none` means the
30s wait for `apply-button-wc` timed out (the caught `PWTimeoutError`
path); otherwise the primary check looks for a visible first
`has_text="Easy apply"` match and the fallback scans up to three
buttons for text containing `"apply"`. -/
def has_easy_apply (region : Option (List Button)) : Bool :=
  match region with
  | none => false
  | some btns =>
    match (easyMatches btns).head? with
    | some (_, b) => if b.visible then true else fallbackScan btns
    | none => fallbackScan btns

/-- Index of the first fallback button (among the first three) whose
text made the fallback scan succeed. -/
def fallbackIdx? (btns : List Button) : Option Nat :=
  (List.range (min 3 btns.length)).find? (fun i =>
    match btns[i]? with
    | none => false
    | some b => fallbackHit b)

/-- The control that caused detection to succeed, phrased from the spec's
description of the capability check: the first visible
`has_text="Easy apply"` match on the primary path, otherwise the first
fallback button whose text contains `"apply"`. -/
def detectedIdx? (btns : List Button) : Option Nat :=
  match (easyMatches btns).head? with
  | some (i, b) => if b.visible then some i else fallbackIdx? btns
  | none => fallbackIdx? btns

/-- The apply-control click of `easy_apply_on_job` (source lines
190–196): the locator `has_text="Easy apply"` is clicked when it has
matches (Playwright locator actions are strict, so two or more matches
raise instead of clicking); with no match, `.first` of all
`btn-primary` buttons is clicked (index 0), and on an empty region that
click's own wait would time out. -/
def easyClick (btns : List Button) : Except PwErr Nat :=
  match easyMatches btns with
  | [] =>
    match btns with
    | [] => Except.error PwErr.timeout
    | _ :: _ => Except.ok 0
  | [(i, _)] => Except.ok i
  | _ => Except.error PwErr.other

/-- Clicks `easy_apply_on_job` performs on the posting page, in order. -/
inductive Click
  | applyButton (i : Nat)
  | fileRemove
  | upload
  | submit (i : Nat)
  | next (i : Nat)
  deriving DecidableEq, Repr

/-- The three `return` sites of `easy_apply_on_job`'s `try` block:
`submitted` is `return True` after clicking Submit, `noEasyApply` is
the `return False` after "Skipping (no Easy apply)", `noSubmitReached`
is the `return False` after "Could not reach Submit step". -/
inductive BodyResult
  | submitted
  | noEasyApply
  | noSubmitReached
  deriving DecidableEq, Repr

/-- Terminal outcome of the apply workflow for one posting, as the spec
names them. -/
inductive ApplyOutcome
  | Submitted
  | Skipped
  | Failed
  deriving DecidableEq, Repr

/-- Environment of one `easy_apply_on_job` call: everything the code
observes of the page, including which of its Playwright calls raise. -/
structure Env where
  gotoErr : Option PwErr
  region : Option (List Button)
  clickEasyErr : Option PwErr
  waitFileRemoveErr : Option PwErr
  clickReplaceErr : Option PwErr
  waitFileInputErr : Option PwErr
  setFilesErr : Option PwErr
  waitUploadErr : Option PwErr
  clickUploadErr : Option PwErr
  submitVisible : Nat → Bool
  clickSubmitErr : Nat → Option PwErr
  nextVisible : Nat → Bool
  clickNextErr : Nat → Option PwErr

/-- Sequence a non-clicking step (a wait, or `set_input_files`) that may
raise, in front of the rest of the body.  The first component collects
the clicks performed. -/
def waitStep (err? : Option PwErr) (rest : List Click × Except PwErr α) :
    List Click × Except PwErr α :=
  match err? with
  | some err => ([], Except.error err)
  | none => rest

/-- Sequence a click that may raise in front of the rest of the body. -/
def clickStep (c : Click) (err? : Option PwErr) (rest : List Click × Except PwErr α) :
    List Click × Except PwErr α :=
  match err? with
  | some err => ([c], Except.error err)
  | none => (c :: rest.1, rest.2)

/-- The `for _ in range(6)` step loop of `easy_apply_on_job` (source
lines 211–223): at each iteration click Submit if visible (returning
`True`), else click Next if visible and repeat, else fall out of the
loop (returning `False`); exhausting the bound also returns `False`.
`i` is the iteration index, the fuel starts at 6. -/
def stepLoop (e : Env) (i : Nat) : Nat → List Click × Except PwErr Bool
  | 0 => ([], Except.ok false)
  | fuel + 1 =>
    if e.submitVisible i then
      match e.clickSubmitErr i with
      | some err => ([Click.submit i], Except.error err)
      | none => ([Click.submit i], Except.ok true)
    else if e.nextVisible i then
      match e.clickNextErr i with
      | some err => ([Click.next i], Except.error err)
      | none =>
        let r := stepLoop e (i + 1) fuel
        (Click.next i :: r.1, r.2)
    else ([], Except.ok false)

/-- Tag the boolean result of the step loop with the `return` site it
corresponds to. -/
def loopResult (r : List Click × Except PwErr Bool) :
    List Click × Except PwErr BodyResult :=
  (r.1,
    match r.2 with
    | Except.ok true => Except.ok BodyResult.submitted
    | Except.ok false => Except.ok BodyResult.noSubmitReached
    | Except.error err => Except.error err)

/-- The `try` block of `easy_apply_on_job` (source lines 184–226):
navigate, check capability, click the apply control, replace and upload
the resume, then run the step loop.  An `Except.error` is an exception
escaping the `try` block. -/
def applyBody (e : Env) : List Click × Except PwErr BodyResult :=
  match e.gotoErr with
  | some err => ([], Except.error err)
  | none =>
    if has_easy_apply e.region then
      match easyClick (e.region.getD []) with
      | Except.error err => ([], Except.error err)
      | Except.ok i =>
        clickStep (Click.applyButton i) e.clickEasyErr
          (waitStep e.waitFileRemoveErr
            (clickStep Click.fileRemove e.clickReplaceErr
              (waitStep e.waitFileInputErr
                (waitStep e.setFilesErr
                  (waitStep e.waitUploadErr
                    (clickStep Click.upload e.clickUploadErr
                      (loopResult (stepLoop e 0 6))))))))
    else ([], Except.ok BodyResult.noEasyApply)

/-- `easy_apply_on_job` (source lines 182–233) mapped to the spec's
outcome vocabulary: the `except` clauses catch every error of the body
and, like the no-submit path, yield `Failed`; the no-capability path is
`Skipped`; reaching Submit is `Submitted`. -/
def easy_apply_on_job (e : Env) : ApplyOutcome :=
  match (applyBody e).2 with
  | Except.ok BodyResult.submitted => ApplyOutcome.Submitted
  | Except.ok BodyResult.noEasyApply => ApplyOutcome.Skipped
  | Except.ok BodyResult.noSubmitReached => ApplyOutcome.Failed
  | Except.error _ => ApplyOutcome.Failed

/-- The boolean `easy_apply_on_job` actually returns to `main` (true
exactly on the `Submitted` outcome). -/
def easyApplyBool (e : Env) : Bool :=
  match (applyBody e).2 with
  | Except.ok BodyResult.submitted => true
  | _ => false

/-! ## The listing scraper (`get_total_pages`, `scrape_job_listings`) -/

/-- A job posting as built by the scraper: the dict
`{"Job Title": ..., "Job Link": ...}`. -/
structure Posting where
  title : String
  link : String
  deriving DecidableEq, Repr

/-- An anchor with `data-testid="job-search-job-detail-link"` as parsed
from a result page: its visible text and its `href` attribute
(`none` when the attribute is absent). -/
structure Anchor where
  text : String
  href? : Option String
  deriving DecidableEq, Repr

/-- The href normalization of `scrape_job_listings` (source lines
119–120): prepend the site origin exactly when the href starts with
`"/"`; every other href is kept unchanged. -/
def normalizeHref (href : String) : String :=
  if ("/".data).isPrefixOf href.data then "https://www.dice.com" ++ href else href

/-- Spec-side predicate: the link is an absolute URL (http or https). -/
def isAbsoluteUrl (s : String) : Bool :=
  ("http://".data).isPrefixOf s.data || ("https://".data).isPrefixOf s.data

/-- Per-page parsing of `scrape_job_listings` (source lines 113–121):
anchors with a missing or empty href are dropped, the rest become
postings with the normalized href as link. -/
def scrapePage (anchors : List Anchor) : List Posting :=
  anchors.filterMap (fun a =>
    match a.href? with
    | none => none
    | some h => if h = "" then none else some { title := a.text, link := normalizeHref h })

/-- `get_total_pages` (source lines 72–83).  The input is the aria-label
of the first `section` whose aria-label contains `"Page"` (`none` when
no such section exists, in particular on an empty body).  The label has
`"Page"` and `"of"` removed, is whitespace-split, and every token is
parsed with `int()`; any `ValueError` — a non-integer token, or a token
count different from two under the `_, total = ...` unpacking — falls
back to 1. -/
def labelInts? (label : String) : Option (List Int) :=
  (pyTokens (pyReplace "of".data [] (pyReplace "Page".data [] label.data))).mapM parseInt?

/-- The `try` block of `get_total_pages` applied to a present label:
`label.replace("Page", "").replace("of", "").split()` parsed with
`int()` and unpacked as `_, total`; `none` from a bad token and a token
count other than two both raise `ValueError`, caught to a total of 1. -/
def totalFromLabel (label : String) : Int :=
  match labelInts? label with
  | some [_, total] => total
  | _ => 1

def get_total_pages (label? : Option String) : Int :=
  match label? with
  | none => 1
  | some label => totalFromLabel label

/-- Spec-side predicate mirroring the claim wording for `get_total_pages`:
the label's content does not parse as exactly two integers. -/
def malformedLabel (label : String) : Bool :=
  match labelInts? label with
  | some xs => xs.length != 2
  | none => true

/-- Environment of one `scrape_job_listings` call.  `first` is the page-1
probe used only for the page count: `none` when `requests.get` raises or
`raise_for_status` fires (the body is then treated as `""`, which parses
to no label); otherwise the pagination aria-label of the body.  `pages p`
is `none` when fetching page `p` in the listing loop raises or returns a
non-200 status (the page is skipped), otherwise that page's anchors. -/
structure ScrapeEnv where
  first : Option (Option String)
  pages : Nat → Option (List Anchor)

/-- The pagination label available to `get_total_pages`: a failed page-1
probe yields an empty body and hence no label. -/
def labelOf (e : ScrapeEnv) : Option String :=
  match e.first with
  | none => none
  | some lbl? => lbl?

/-- The detected total page count of a run. -/
def totalPagesOf (e : ScrapeEnv) : Int :=
  get_total_pages (labelOf e)

/-- The page numbers the scraping loop iterates over:
`range(1, total_pages + 1)`. -/
def pageNums (total : Int) : List Nat :=
  (List.range total.toNat).map (fun k => k + 1)

/-- All postings accumulated by the page loop of `scrape_job_listings`,
before deduplication; a failed page contributes nothing. -/
def rawJobs (e : ScrapeEnv) : List Posting :=
  ((pageNums (totalPagesOf e)).map (fun p =>
    match e.pages p with
    | none => []
    | some anchors => scrapePage anchors)).flatten

/-- The link-deduplication pass of `scrape_job_listings` (source lines
126–133), keeping the first occurrence of every link; `seen` is the set
of links already kept. -/
def dedupeAux (seen : List String) : List Posting → List Posting
  | [] => []
  | j :: rest =>
    if seen.contains j.link then dedupeAux seen rest
    else j :: dedupeAux (j.link :: seen) rest

/-- Deduplicate postings by link, keeping first occurrences in order. -/
def dedupeByLink (jobs : List Posting) : List Posting :=
  dedupeAux [] jobs

/-- `scrape_job_listings` (source lines 86–135): fetch the page-1 probe,
detect the page count, loop over the pages, and deduplicate by link. -/
def scrape_job_listings (e : ScrapeEnv) : List Posting :=
  dedupeByLink (rawJobs e)

/-! ## The orchestrator (`main`) -/

/-- Candidate selection of `main` (source lines 240–243):
`[lnk for lnk in links if lnk not in seen_links]`. -/
def newLinks (seen : List String) (links : List String) : List String :=
  links.filter (fun l => !(seen.contains l))

/-- The per-candidate loop of `main` (source lines 257–268): apply to the
link, then append it to the ledger file and add it to the in-memory seen
set — regardless of the outcome — before the next candidate begins.
`applyOf k` abstracts the boolean result of `easy_apply_on_job` on the
`k`-th processed candidate (the page state evolves between calls, so the
result is indexed by position).  Returns the final ledger file contents,
the final in-memory seen set, and the submitted count. -/
def runLoop (applyOf : Nat → Bool) (k : Nat) :
    List String → String → List String → Nat → String × List String × Nat
  | [], content, seen, submitted => (content, seen, submitted)
  | link :: rest, content, seen, submitted =>
    runLoop applyOf (k + 1) rest (append_seen_link link content) (link :: seen)
      (if applyOf k then submitted + 1 else submitted)

/-- One full run of `main` (source lines 237–272) against a fixed remote
listing `e` and ledger file contents `content`: scrape, select
candidates, and — unless there is nothing new — process every candidate.
Returns the final ledger contents and the submitted count.  (Login is
modelled as succeeding; a failed login aborts the run with the ledger
untouched, which no claim depends on.) -/
def runOnce (e : ScrapeEnv) (applyOf : Nat → Bool) (content : String) : String × Nat :=
  let jobs := scrape_job_listings e
  let links := jobs.map Posting.link
  let seen := load_seen_links content
  let newL := newLinks seen links
  if newL.isEmpty then (content, 0)
  else
    let r := runLoop applyOf 0 newL content seen 0
    (r.1, r.2.2)

/-- The candidate list the second of two runs computes, when the remote
listing is unchanged and the ledger is untouched between the runs. -/
def secondRunCandidates (e : ScrapeEnv) (applyOf : Nat → Bool) (content : String) :
    List String :=
  newLinks (load_seen_links (runOnce e applyOf content).1)
    ((scrape_job_listings e).map Posting.link)

/-! ## Helper lemmas -/

/-- Character data of a string concatenation. -/
theorem strData_append (a b : String) : (a ++ b).data = a.data ++ b.data := rfl

/-- The characters `append_seen_link` writes for a list of links. -/
def linksData (ls : List String) : List Char :=
  (ls.map (fun l => l.data ++ ['\n'])).flatten

/-- The per-candidate loop appends exactly its candidates' links, in
order, to the ledger file. -/
theorem runLoop_content (applyOf : Nat → Bool) :
    ∀ (links : List String) (k : Nat) (content : String) (seen : List String) (n : Nat),
      (runLoop applyOf k links content seen n).1.data = content.data ++ linksData links := by
  intro links
  induction links with
  | nil => intro k content seen n; simp [runLoop, linksData]
  | cons l rest ih =>
    intro k content seen n
    simp only [runLoop]
    rw [ih]
    simp [linksData, append_seen_link, strData_append]

/-- A prefix of `l` is a prefix of `l ++ rest`. -/
theorem isPrefixOf_append (p : List Char) :
    ∀ (l rest : List Char), p.isPrefixOf l = true → p.isPrefixOf (l ++ rest) = true := by
  induction p with
  | nil => intro l rest _; simp [List.isPrefixOf]
  | cons a as ih =>
    intro l rest h
    cases l with
    | nil => simp [List.isPrefixOf] at h
    | cons b bs =>
      simp only [List.cons_append]
      simp only [List.isPrefixOf, Bool.and_eq_true] at h ⊢
      exact ⟨h.1, ih bs rest h.2⟩

/-- The step loop reads the page only at iterations 0 to 5: two
environments agreeing there run it identically. -/
theorem stepLoop_congr (e₁ e₂ : Env) :
    ∀ (fuel i : Nat),
      (∀ j, i ≤ j → j < i + fuel →
        e₁.submitVisible j = e₂.submitVisible j ∧ e₁.clickSubmitErr j = e₂.clickSubmitErr j ∧
          e₁.nextVisible j = e₂.nextVisible j ∧ e₁.clickNextErr j = e₂.clickNextErr j) →
      stepLoop e₁ i fuel = stepLoop e₂ i fuel := by
  intro fuel
  induction fuel with
  | zero => intro i _; rfl
  | succ f ih =>
    intro i hag
    have h0 := hag i (Nat.le_refl i) (by omega)
    have hrec : stepLoop e₁ (i + 1) f = stepLoop e₂ (i + 1) f :=
      ih (i + 1) (fun j hj1 hj2 => hag j (by omega) (by omega))
    simp only [stepLoop]
    rw [h0.1, h0.2.1, h0.2.2.1, h0.2.2.2, hrec]

/-- With Submit never visible and Next always clickable, the loop runs
out of fuel and returns `False`. -/
theorem stepLoop_exhaust (e : Env) (hs : ∀ j, e.submitVisible j = false)
    (hn : ∀ j, e.nextVisible j = true) (he : ∀ j, e.clickNextErr j = none) :
    ∀ (fuel i : Nat), (stepLoop e i fuel).2 = Except.ok false := by
  intro fuel
  induction fuel with
  | zero => intro i; rfl
  | succ f ih =>
    intro i
    simp only [stepLoop, hs i, hn i, he i]
    exact ih (i + 1)

/-! ## C1: outcome closure and the exception boundary -/

/-- C1: for every posting environment, `easy_apply_on_job` terminates in
exactly one of Submitted, Skipped, Failed, and any error raised inside
its `try` body (any state from navigation on) is caught at the workflow
boundary and mapped to the non-submitted outcome `Failed` instead of
propagating. -/
theorem c1_outcome_closure (e : Env) :
    (easy_apply_on_job e = ApplyOutcome.Submitted ∨ easy_apply_on_job e = ApplyOutcome.Skipped ∨
      easy_apply_on_job e = ApplyOutcome.Failed) ∧
      (∀ err : PwErr, (applyBody e).2 = Except.error err →
        easy_apply_on_job e = ApplyOutcome.Failed) := by
  constructor
  · cases h : (applyBody e).2 with
    | error err => simp [easy_apply_on_job, h]
    | ok r => cases r <;> simp [easy_apply_on_job, h]
  · intro err h
    simp [easy_apply_on_job, h]

/-- An environment whose navigation (and everything after) raises a
Playwright timeout. -/
def envNavFail : Env where
  gotoErr := some PwErr.timeout
  region := none
  clickEasyErr := none
  waitFileRemoveErr := none
  clickReplaceErr := none
  waitFileInputErr := none
  setFilesErr := none
  waitUploadErr := none
  clickUploadErr := none
  submitVisible := fun _ => false
  clickSubmitErr := fun _ => none
  nextVisible := fun _ => false
  clickNextErr := fun _ => none

/-- Witness for C1: a run whose body raises a timeout ends in `Failed`. -/
theorem c1_outcome_closure_witness :
    (applyBody envNavFail).2 = Except.error PwErr.timeout ∧
      easy_apply_on_job envNavFail = ApplyOutcome.Failed :=
  ⟨rfl, (c1_outcome_closure envNavFail).2 PwErr.timeout rfl⟩

/-! ## C5: capability detection and the Skipped path -/

/-- C5: when navigation succeeds but the capability check fails — the
apply-control region never appears within its wait, or neither a
visible Easy-apply primary button nor any of at most three fallback
buttons with text containing "apply" is found — the outcome is
`Skipped`, no click at all is attempted on the posting page, and (third
conjunct) the orchestrator still appends the candidate's link to the
ledger before the next candidate, whatever the outcome was. -/
theorem c5_capability_skip (e : Env) (hnav : e.gotoErr = none)
    (hcap : has_easy_apply e.region = false) :
    easy_apply_on_job e = ApplyOutcome.Skipped ∧ (applyBody e).1 = [] ∧
      (∀ (applyOf : Nat → Bool) (k : Nat) (link : String) (rest : List String)
          (content : String) (seen : List String) (n : Nat),
        (runLoop applyOf k (link :: rest) content seen n).1.data =
          content.data ++ (link.data ++ '\n' :: linksData rest)) := by
  have hbody : applyBody e = ([], Except.ok BodyResult.noEasyApply) := by
    unfold applyBody
    rw [hnav, hcap]
    simp
  refine ⟨?_, ?_, ?_⟩
  · simp [easy_apply_on_job, hbody]
  · simp [hbody]
  · intro applyOf k link rest content seen n
    rw [runLoop_content]
    simp [linksData]

/-- An environment where the 30-second wait for the `apply-button-wc`
region times out. -/
def envNoRegion : Env where
  gotoErr := none
  region := none
  clickEasyErr := none
  waitFileRemoveErr := none
  clickReplaceErr := none
  waitFileInputErr := none
  setFilesErr := none
  waitUploadErr := none
  clickUploadErr := none
  submitVisible := fun _ => false
  clickSubmitErr := fun _ => none
  nextVisible := fun _ => false
  clickNextErr := fun _ => none

/-- Witness for C5: the capability wait times out, the outcome is
`Skipped` and no click happened. -/
theorem c5_capability_skip_witness :
    easy_apply_on_job envNoRegion = ApplyOutcome.Skipped ∧ (applyBody envNoRegion).1 = [] :=
  ⟨(c5_capability_skip envNoRegion rfl rfl).1, (c5_capability_skip envNoRegion rfl rfl).2.1⟩

/-! ## C6: the bounded step loop -/

/-- C6: the post-upload step loop runs at most six iterations — its run
depends only on the page at iterations below 6 (first conjunct); a
visible Submit is clicked and yields `True` (second); with Submit
hidden, a visible Next is clicked and the loop repeats (third); with
neither visible the loop stops with `False` (fourth); exhausting the
six iterations without a Submit yields `False` (fifth); the `False`
loop result and the `True` one map to the `Failed` and `Submitted`
workflow outcomes (sixth, seventh); and the orchestrator appends the
link to the ledger either way (eighth). -/
theorem c6_step_loop :
    (∀ e₁ e₂ : Env,
      (∀ j, j < 6 → e₁.submitVisible j = e₂.submitVisible j ∧
        e₁.clickSubmitErr j = e₂.clickSubmitErr j ∧ e₁.nextVisible j = e₂.nextVisible j ∧
          e₁.clickNextErr j = e₂.clickNextErr j) →
      stepLoop e₁ 0 6 = stepLoop e₂ 0 6) ∧
    (∀ (e : Env) (i fuel : Nat), e.submitVisible i = true → e.clickSubmitErr i = none →
      stepLoop e i (fuel + 1) = ([Click.submit i], Except.ok true)) ∧
    (∀ (e : Env) (i fuel : Nat), e.submitVisible i = false → e.nextVisible i = true →
      e.clickNextErr i = none →
      stepLoop e i (fuel + 1) =
        (Click.next i :: (stepLoop e (i + 1) fuel).1, (stepLoop e (i + 1) fuel).2)) ∧
    (∀ (e : Env) (i fuel : Nat), e.submitVisible i = false → e.nextVisible i = false →
      stepLoop e i (fuel + 1) = ([], Except.ok false)) ∧
    (∀ e : Env, (∀ j, e.submitVisible j = false) → (∀ j, e.nextVisible j = true) →
      (∀ j, e.clickNextErr j = none) → (stepLoop e 0 6).2 = Except.ok false) ∧
    (∀ e : Env, (applyBody e).2 = Except.ok BodyResult.noSubmitReached →
      easy_apply_on_job e = ApplyOutcome.Failed) ∧
    (∀ e : Env, (applyBody e).2 = Except.ok BodyResult.submitted →
      easy_apply_on_job e = ApplyOutcome.Submitted) ∧
    (∀ (applyOf : Nat → Bool) (k : Nat) (link : String) (rest : List String)
        (content : String) (seen : List String) (n : Nat),
      (runLoop applyOf k (link :: rest) content seen n).1.data =
        content.data ++ (link.data ++ '\n' :: linksData rest)) := by
  refine ⟨?_, ?_, ?_, ?_, ?_, ?_, ?_, ?_⟩
  · intro e₁ e₂ hag
    exact stepLoop_congr e₁ e₂ 6 0 (fun j hj1 hj2 => hag j (by omega))
  · intro e i fuel hs he
    simp [stepLoop, hs, he]
  · intro e i fuel hs hn he
    simp [stepLoop, hs, hn, he]
  · intro e i fuel hs hn
    simp [stepLoop, hs, hn]
  · intro e hs hn he
    exact stepLoop_exhaust e hs hn he 6 0
  · intro e h
    simp [easy_apply_on_job, h]
  · intro e h
    simp [easy_apply_on_job, h]
  · intro applyOf k link rest content seen n
    rw [runLoop_content]
    simp [linksData]

/-- A region with a single visible Easy-apply control. -/
def btnsOneEasy : List Button :=
  [{ text := "Easy apply", visible := true, innerTextErr := false }]

/-- An environment that reaches the step loop and never shows Submit:
the loop clicks Next six times and runs out of fuel. -/
def envExhaust : Env where
  gotoErr := none
  region := some btnsOneEasy
  clickEasyErr := none
  waitFileRemoveErr := none
  clickReplaceErr := none
  waitFileInputErr := none
  setFilesErr := none
  waitUploadErr := none
  clickUploadErr := none
  submitVisible := fun _ => false
  clickSubmitErr := fun _ => none
  nextVisible := fun _ => true
  clickNextErr := fun _ => none

/-- Witness for C6: exhausting the six iterations without a Submit gives
the loop result `False` and the workflow outcome `Failed`. -/
theorem c6_step_loop_witness :
    (stepLoop envExhaust 0 6).2 = Except.ok false ∧
      easy_apply_on_job envExhaust = ApplyOutcome.Failed :=
  ⟨c6_step_loop.2.2.2.2.1 envExhaust (fun _ => rfl) (fun _ => rfl) (fun _ => rfl),
    c6_step_loop.2.2.2.2.2.1 envExhaust rfl⟩

/-! ## C7: which control gets clicked -/

/-- A region whose first primary button is not an apply control at all
and whose second button carries the "apply" text: detection succeeds via
the fallback scan on button 1, yet the click targets button 0. -/
def btnsFallback : List Button :=
  [{ text := "Save job", visible := true, innerTextErr := false },
   { text := "Apply now", visible := true, innerTextErr := false }]

/-- An `easy_apply_on_job` environment on that region (the step after
the apply click times out so the click trace stops there). -/
def envFallbackClick : Env where
  gotoErr := none
  region := some btnsFallback
  clickEasyErr := none
  waitFileRemoveErr := some PwErr.timeout
  clickReplaceErr := none
  waitFileInputErr := none
  setFilesErr := none
  waitUploadErr := none
  clickUploadErr := none
  submitVisible := fun _ => false
  clickSubmitErr := fun _ => none
  nextVisible := fun _ => false
  clickNextErr := fun _ => none

/-- Counterexample to C7 as stated: capability detection succeeds via
the fallback button at index 1 ("Apply now"), but the button the
workflow clicks is the region's first primary button, index 0
("Save job") — not the control that caused detection to succeed. -/
theorem c7_clicked_control_counterexample :
    has_easy_apply (some btnsFallback) = true ∧ detectedIdx? btnsFallback = some 1 ∧
      easyClick btnsFallback = Except.ok 0 ∧
      (applyBody envFallbackClick).1 = [Click.applyButton 0] :=
  ⟨rfl, rfl, rfl, rfl⟩

/-- C7 (amended): the clicked control is determined by the
`has_text="Easy apply"` locator, not by which control caused detection.
With exactly one Easy-apply match the workflow clicks that match
(first conjunct), whether or not it is visible: on the primary
detection path (the match is visible) this is the detected control
(second conjunct), but when the single match is invisible detection can
only have succeeded via the fallback scan (third conjunct), and the
clicked match need not be the fallback button that matched.  With no
Easy-apply match the workflow clicks the region's first primary button
(index 0), which also need not be the fallback button that caused
detection (fourth conjunct).  Two or more Easy-apply matches make the
strict locator click raise instead of clicking (fifth conjunct). -/
theorem c7_clicked_control_amended (btns : List Button) :
    (∀ (i : Nat) (b : Button), easyMatches btns = [(i, b)] → easyClick btns = Except.ok i) ∧
    (∀ (i : Nat) (b : Button), easyMatches btns = [(i, b)] → b.visible = true →
      detectedIdx? btns = some i) ∧
    (∀ (i : Nat) (b : Button), easyMatches btns = [(i, b)] → b.visible = false →
      detectedIdx? btns = fallbackIdx? btns) ∧
    (easyMatches btns = [] → has_easy_apply (some btns) = true →
      easyClick btns = Except.ok 0 ∧ detectedIdx? btns = fallbackIdx? btns) ∧
    (∀ (m₁ m₂ : Nat × Button) (ms : List (Nat × Button)),
      easyMatches btns = m₁ :: m₂ :: ms → easyClick btns = Except.error PwErr.other) := by
  refine ⟨?_, ?_, ?_, ?_, ?_⟩
  · intro i b hm
    simp [easyClick, hm]
  · intro i b hm hb
    simp [detectedIdx?, hm, hb]
  · intro i b hm hb
    simp [detectedIdx?, hm, hb]
  · intro hm hcap
    have hne : btns ≠ [] := by
      intro hnil
      rw [hnil] at hcap hm
      simp [has_easy_apply, easyMatches, fallbackScan] at hcap
    constructor
    · cases btns with
      | nil => exact absurd rfl hne
      | cons b bs => simp [easyClick, hm]
    · simp [detectedIdx?, hm]
  · intro m₁ m₂ ms hm
    simp [easyClick, hm]

/-- A region where the only Easy-apply match is invisible while a
different button's "apply" text carries the fallback detection: the
click targets the invisible match at index 1, not the fallback button
at index 0. -/
def btnsInvisibleEasy : List Button :=
  [{ text := "Apply now", visible := true, innerTextErr := false },
   { text := "Easy apply", visible := false, innerTextErr := false }]

/-- Witness for the amended C7, covering its cases concretely: a single
visible Easy-apply button is both detected and clicked (index 0); with
a single invisible Easy-apply match at index 1 detection succeeds only
via the fallback scan at index 0, yet the click targets the match at
index 1; and with no Easy-apply match at all the click goes to
index 0. -/
theorem c7_clicked_control_amended_witness :
    (easyClick btnsOneEasy = Except.ok 0 ∧ detectedIdx? btnsOneEasy = some 0) ∧
      (has_easy_apply (some btnsInvisibleEasy) = true ∧
        easyClick btnsInvisibleEasy = Except.ok 1 ∧
        detectedIdx? btnsInvisibleEasy = fallbackIdx? btnsInvisibleEasy ∧
        fallbackIdx? btnsInvisibleEasy = some 0) ∧
      easyClick btnsFallback = Except.ok 0 :=
  ⟨⟨(c7_clicked_control_amended btnsOneEasy).1 0
      { text := "Easy apply", visible := true, innerTextErr := false } rfl,
    (c7_clicked_control_amended btnsOneEasy).2.1 0
      { text := "Easy apply", visible := true, innerTextErr := false } rfl rfl⟩,
   ⟨rfl,
    (c7_clicked_control_amended btnsInvisibleEasy).1 1
      { text := "Easy apply", visible := false, innerTextErr := false } rfl,
    (c7_clicked_control_amended btnsInvisibleEasy).2.2.1 1
      { text := "Easy apply", visible := false, innerTextErr := false } rfl rfl,
    rfl⟩,
   ((c7_clicked_control_amended btnsFallback).2.2.2.1 rfl rfl).1⟩

/-! ## C8: href normalization -/

/-- Counterexample to C8 as stated: a path-relative anchor href without
a leading slash ("jobs/detail/1") is neither absolute nor starts with
"/", so the parser stores it unchanged — the resulting Posting link is
not an absolute URL. -/
theorem c8_normalization_counterexample :
    scrapePage [{ text := "T", href? := some "jobs/detail/1" }] =
        [{ title := "T", link := "jobs/detail/1" }] ∧
      isAbsoluteUrl "jobs/detail/1" = false :=
  ⟨rfl, rfl⟩

/-- C8 (amended): during page parsing only hrefs beginning with "/" are
normalized — the literal site origin is prepended, which does yield an
absolute URL (for a protocol-relative "//host/path" href this prepends
the origin verbatim rather than just a scheme); every other href,
including a path-relative one without a leading slash, is stored
unchanged, so such links are not absolute.  Every stored Posting link
is the normalization of its anchor's href. -/
theorem c8_normalization_amended :
    (∀ href : String, ("/".data).isPrefixOf href.data = true →
      normalizeHref href = "https://www.dice.com" ++ href ∧
        isAbsoluteUrl (normalizeHref href) = true) ∧
    (∀ href : String, ("/".data).isPrefixOf href.data = false → normalizeHref href = href) ∧
    (∀ (anchors : List Anchor) (p : Posting), p ∈ scrapePage anchors →
      ∃ a ∈ anchors, ∃ h : String, a.href? = some h ∧ p.link = normalizeHref h) := by
  refine ⟨?_, ?_, ?_⟩
  · intro href h
    have hn : normalizeHref href = "https://www.dice.com" ++ href := by
      simp [normalizeHref, h]
    refine ⟨hn, ?_⟩
    rw [hn]
    have habs : ("https://".data).isPrefixOf (("https://www.dice.com" ++ href).data) = true := by
      rw [strData_append]
      exact isPrefixOf_append _ _ _ (by decide)
    simp [isAbsoluteUrl, habs]
  · intro href h
    simp [normalizeHref, h]
  · intro anchors p hp
    unfold scrapePage at hp
    rw [List.mem_filterMap] at hp
    obtain ⟨a, ha, hfa⟩ := hp
    cases hhr : a.href? with
    | none => rw [hhr] at hfa; simp at hfa
    | some h =>
      rw [hhr] at hfa
      by_cases hemp : h = ""
      · simp [hemp] at hfa
      · refine ⟨a, ha, h, hhr, ?_⟩
        simp only [hemp, if_false, ite_false, if_neg, Option.some.injEq] at hfa
        rw [← hfa]

/-- Witness for the amended C8 at concrete hrefs: a root-relative href
gets the origin prepended and becomes absolute; an href that does not
start with "/" is stored unchanged. -/
theorem c8_normalization_amended_witness :
    (normalizeHref "/jobs/detail/1" = "https://www.dice.com" ++ "/jobs/detail/1" ∧
      isAbsoluteUrl (normalizeHref "/jobs/detail/1") = true) ∧
      normalizeHref "mailto:hr@example.com" = "mailto:hr@example.com" :=
  ⟨c8_normalization_amended.1 "/jobs/detail/1" (by decide),
    c8_normalization_amended.2.1 "mailto:hr@example.com" (by decide)⟩

/-! ## C9: page-count fallback -/

/-- C9: with no pagination section carrying a matching aria-label, or
with a label whose content does not parse as exactly two integers,
`get_total_pages` returns 1 (and, being total, raises nothing: the
`ValueError` of a bad token or of the two-element unpacking is the
caught path). -/
theorem c9_total_pages_fallback :
    get_total_pages none = 1 ∧
      ∀ label : String, malformedLabel label = true → get_total_pages (some label) = 1 := by
  refine ⟨rfl, ?_⟩
  intro label h
  unfold malformedLabel at h
  show totalFromLabel label = 1
  unfold totalFromLabel
  cases hm : labelInts? label with
  | none => rfl
  | some xs =>
    rw [hm] at h
    cases xs with
    | nil => rfl
    | cons a t =>
      cases t with
      | nil => rfl
      | cons b t2 =>
        cases t2 with
        | nil => simp at h
        | cons c t3 => rfl

/-- Witness for C9: the label "Page 1 of many" has a non-integer token,
so the page count falls back to 1. -/
theorem c9_total_pages_fallback_witness :
    malformedLabel "Page 1 of many" = true ∧ get_total_pages (some "Page 1 of many") = 1 :=
  ⟨by decide, c9_total_pages_fallback.2 "Page 1 of many" (by decide)⟩

/-! ## C10: failed page-1 probe -/

/-- C10: when the initial page-1 request (used only for the page count)
raises or reports a non-success status, the run does not fail: the body
counts as empty so the page count defaults to 1, and the scraping loop
still attempts page 1 — the scrape is the deduplication of whatever
page 1's listing fetch yields. -/
theorem c10_first_fetch_failure (e : ScrapeEnv) (h : e.first = none) :
    totalPagesOf e = 1 ∧ pageNums (totalPagesOf e) = [1] ∧
      scrape_job_listings e =
        dedupeByLink
          (match e.pages 1 with
           | none => []
           | some anchors => scrapePage anchors) := by
  have hl : labelOf e = none := by simp [labelOf, h]
  have ht : totalPagesOf e = 1 := by
    unfold totalPagesOf
    rw [hl]
    rfl
  refine ⟨ht, ?_, ?_⟩
  · rw [ht]; rfl
  · unfold scrape_job_listings rawJobs
    rw [ht]
    show dedupeByLink (([1].map fun p =>
      match e.pages p with
      | none => []
      | some anchors => scrapePage anchors).flatten) = _
    simp

/-- A run whose page-1 probe fails but whose page-1 listing fetch works. -/
def envProbeFail : ScrapeEnv where
  first := none
  pages := fun p =>
    if p = 1 then some [{ text := "AI Engineer", href? := some "/jobs/detail/42" }] else none

/-- Witness for C10: the failed probe defaults to one page and the
scrape still returns page 1's posting. -/
theorem c10_first_fetch_failure_witness :
    totalPagesOf envProbeFail = 1 ∧ pageNums (totalPagesOf envProbeFail) = [1] ∧
      scrape_job_listings envProbeFail =
        [{ title := "AI Engineer", link := "https://www.dice.com/jobs/detail/42" }] := by
  have h := c10_first_fetch_failure envProbeFail rfl
  exact ⟨h.1, h.2.1, h.2.2.trans rfl⟩

/-! ## C4: candidate selection -/

/-- Membership through `List.contains` for the string sets the program
keeps as Python sets. -/
theorem contains_iff_mem {α : Type} [BEq α] [LawfulBEq α] (l : List α) (a : α) :
    l.contains a = true ↔ a ∈ l :=
  List.elem_iff

/-- Deduplication only ever drops elements: the result is a sublist. -/
theorem dedupeAux_sublist (l : List Posting) :
    ∀ seen : List String, (dedupeAux seen l).Sublist l := by
  induction l with
  | nil => intro seen; simp [dedupeAux]
  | cons j rest ih =>
    intro seen
    unfold dedupeAux
    by_cases h : seen.contains j.link = true
    · rw [if_pos h]
      exact (ih seen).cons j
    · rw [if_neg h]
      exact (ih (j.link :: seen)).cons₂ j

/-- A link survives deduplication iff it occurs in the input and is not
already in the accumulated seen set. -/
theorem mem_map_link_dedupeAux (x : String) :
    ∀ (l : List Posting) (seen : List String),
      x ∈ (dedupeAux seen l).map Posting.link ↔ x ∈ l.map Posting.link ∧ x ∉ seen := by
  intro l
  induction l with
  | nil => intro seen; simp [dedupeAux]
  | cons j rest ih =>
    intro seen
    unfold dedupeAux
    by_cases h : seen.contains j.link = true
    · rw [if_pos h]
      have hj : j.link ∈ seen := (contains_iff_mem seen j.link).1 h
      rw [ih]
      simp only [List.map_cons, List.mem_cons]
      constructor
      · rintro ⟨hx, hns⟩
        exact ⟨Or.inr hx, hns⟩
      · rintro ⟨hx | hx, hns⟩
        · exact absurd (hx ▸ hj) hns
        · exact ⟨hx, hns⟩
    · rw [if_neg h]
      have hj : j.link ∉ seen := fun hm => h ((contains_iff_mem seen j.link).2 hm)
      simp only [List.map_cons, List.mem_cons, ih, List.mem_cons]
      constructor
      · rintro (rfl | ⟨hx, hns⟩)
        · exact ⟨Or.inl rfl, hj⟩
        · exact ⟨Or.inr hx, fun hm => hns (Or.inr hm)⟩
      · rintro ⟨hx | hx, hns⟩
        · exact Or.inl hx
        · by_cases hxj : x = j.link
          · exact Or.inl hxj
          · exact Or.inr ⟨hx, fun hm => hm.elim hxj hns⟩

/-- The deduplicated links are pairwise distinct. -/
theorem nodup_map_link_dedupeAux (l : List Posting) :
    ∀ seen : List String, ((dedupeAux seen l).map Posting.link).Nodup := by
  induction l with
  | nil => intro seen; simp [dedupeAux]
  | cons j rest ih =>
    intro seen
    unfold dedupeAux
    by_cases h : seen.contains j.link = true
    · rw [if_pos h]
      exact ih seen
    · rw [if_neg h]
      simp only [List.map_cons, List.nodup_cons]
      refine ⟨?_, ih (j.link :: seen)⟩
      intro hmem
      rw [mem_map_link_dedupeAux] at hmem
      exact hmem.2 (List.mem_cons_self j.link seen)

/-- The remote listing of the spec's worked example: one page whose
anchors resolve to the links A, B, C, D in that order. -/
def envExample : ScrapeEnv where
  first := some none
  pages := fun p =>
    if p = 1 then
      some [{ text := "tA", href? := some "A" }, { text := "tB", href? := some "B" },
            { text := "tC", href? := some "C" }, { text := "tD", href? := some "D" }]
    else none

/-- C4: the candidate list is the scraped postings deduplicated by link
(first occurrence kept) minus the ledger: its links are pairwise
distinct (first conjunct); it is a subsequence of the raw scrape, so
first-seen order is preserved (second); a link is a candidate exactly
when it was scraped and is not in the loaded ledger (third); and on the
spec's example — ledger containing A and B, scrape yielding A, B, C, D —
the candidates are exactly C, D (fourth). -/
theorem c4_candidate_selection (e : ScrapeEnv) (ledger : String) :
    (newLinks (load_seen_links ledger) ((scrape_job_listings e).map Posting.link)).Nodup ∧
      (newLinks (load_seen_links ledger) ((scrape_job_listings e).map Posting.link)).Sublist
        ((rawJobs e).map Posting.link) ∧
      (∀ l : String,
        l ∈ newLinks (load_seen_links ledger) ((scrape_job_listings e).map Posting.link) ↔
          l ∈ (rawJobs e).map Posting.link ∧ l ∉ load_seen_links ledger) ∧
      newLinks (load_seen_links "A\nB\n") ((scrape_job_listings envExample).map Posting.link) =
        ["C", "D"] := by
  refine ⟨?_, ?_, ?_, rfl⟩
  · exact List.Nodup.filter _ (nodup_map_link_dedupeAux (rawJobs e) [])
  · exact (List.filter_sublist _).trans
      (List.Sublist.map Posting.link (dedupeAux_sublist (rawJobs e) []))
  · intro l
    unfold newLinks
    rw [List.mem_filter]
    unfold scrape_job_listings dedupeByLink
    rw [mem_map_link_dedupeAux]
    simp only [List.not_mem_nil, not_false_iff, and_true]
    constructor
    · rintro ⟨hm, hc⟩
      refine ⟨hm, fun hmem => ?_⟩
      rw [Bool.not_eq_true'] at hc
      rw [(contains_iff_mem _ _).2 hmem] at hc
      exact Bool.noConfusion hc
    · rintro ⟨hm, hns⟩
      refine ⟨hm, ?_⟩
      rw [Bool.not_eq_true']
      cases hc : (load_seen_links ledger).contains l with
      | false => rfl
      | true => exact absurd ((contains_iff_mem _ _).1 hc) hns

/-! ## C2: the ledger append invariant -/

/-- C2: during a run the per-candidate loop appends to the ledger file
exactly the links of that run's candidate list, in order — so the ledger
only ever grows and everything appended was a candidate (first
conjunct) — and each step of the loop appends the current candidate's
link to the file and inserts it into the in-memory seen set immediately
after the apply attempt, whatever its boolean outcome, before the loop
moves on to the remaining candidates (second conjunct, an exact
unfolding of one iteration). -/
theorem c2_ledger_append (applyOf : Nat → Bool) (links : List String) (k : Nat)
    (content : String) (seen : List String) (n : Nat) :
    (runLoop applyOf k links content seen n).1.data = content.data ++ linksData links ∧
      (∀ (link : String) (rest : List String),
        runLoop applyOf k (link :: rest) content seen n =
          runLoop applyOf (k + 1) rest (append_seen_link link content) (link :: seen)
            (if applyOf k then n + 1 else n)) :=
  ⟨runLoop_content applyOf links k content seen n, fun _ _ => rfl⟩

/-! ## C3: cross-run idempotence -/

/-- `splitNl` always produces at least one record. -/
theorem splitNl_ne_nil : ∀ cs : List Char, splitNl cs ≠ [] := by
  intro cs
  induction cs with
  | nil => simp [splitNl]
  | cons c cs ih =>
    unfold splitNl
    by_cases h : c = '\n'
    · simp [h]
    · rw [if_neg h]
      cases hs : splitNl cs with
      | nil => exact absurd hs ih
      | cons l ls => simp

/-- Unfolding of `splitNl` at a newline. -/
theorem splitNl_cons_nl (cs : List Char) : splitNl ('\n' :: cs) = [] :: splitNl cs := rfl

/-- Unfolding of `splitNl` at a non-newline character. -/
theorem splitNl_cons_ne (c : Char) (h : c ≠ '\n') (cs l : List Char) (ls : List (List Char))
    (hs : splitNl cs = l :: ls) : splitNl (c :: cs) = (c :: l) :: ls := by
  unfold splitNl
  rw [if_neg h, hs]

/-- Splitting at a newline in the middle splits the records around it. -/
theorem splitNl_append_nl (b : List Char) :
    ∀ a : List Char, splitNl (a ++ '\n' :: b) = splitNl a ++ splitNl b := by
  intro a
  induction a with
  | nil => simp [splitNl]
  | cons c cs ih =>
    by_cases h : c = '\n'
    · subst h
      rw [List.cons_append, splitNl_cons_nl, splitNl_cons_nl, ih]
      rfl
    · cases hs : splitNl cs with
      | nil => exact absurd hs (splitNl_ne_nil cs)
      | cons l ls =>
        have h2 : splitNl (cs ++ '\n' :: b) = l :: (ls ++ splitNl b) := by
          rw [ih, hs]
          rfl
        rw [List.cons_append, splitNl_cons_ne c h _ _ _ h2, splitNl_cons_ne c h _ _ _ hs]
        rfl

/-- A newline-free character list is, as file contents, a single line. -/
theorem splitNl_nlfree : ∀ l : List Char, '\n' ∉ l → splitNl l = [l] := by
  intro l
  induction l with
  | nil => intro _; rfl
  | cons c cs ih =>
    intro h
    have hc : c ≠ '\n' := fun hh => h (hh ▸ List.mem_cons_self c cs)
    have hcs : '\n' ∉ cs := fun hh => h (List.mem_cons_of_mem c hh)
    unfold splitNl
    rw [if_neg hc, ih hcs]

/-- A link round-trips through the ledger file: it is non-empty, free of
newlines, and invariant under Python's `strip()`.  Every absolute URL
the scraper builds from a root-relative href satisfies this. -/
def goodLink (l : String) : Bool :=
  !l.data.isEmpty && !l.data.contains '\n' && (stripWs l.data == l.data)

/-- Unpacking of `goodLink`. -/
theorem goodLink_spec (l : String) (h : goodLink l = true) :
    l.data ≠ [] ∧ '\n' ∉ l.data ∧ stripWs l.data = l.data := by
  unfold goodLink at h
  simp only [Bool.and_eq_true, Bool.not_eq_true', beq_iff_eq] at h
  refine ⟨?_, ?_, h.2⟩
  · intro hnil
    rw [hnil] at h
    simp at h
  · intro hmem
    have := (contains_iff_mem l.data '\n').2 hmem
    rw [h.1.2] at this
    exact Bool.noConfusion this

/-- The ledger contents are newline-terminated (or empty) — true of the
empty initial file and preserved by every `append_seen_link`. -/
def nlTerminated (content : String) : Prop :=
  content.data = [] ∨ ∃ p : List Char, content.data = p ++ ['\n']

/-- A line of the ledger file that is a good link is loaded verbatim. -/
theorem mem_load_of_line (lk : String) (content : String)
    (hmem : lk.data ∈ splitNl content.data) (hgood : goodLink lk = true) :
    lk ∈ load_seen_links content := by
  obtain ⟨hne, _, hstrip⟩ := goodLink_spec lk hgood
  unfold load_seen_links
  rw [List.mem_filterMap]
  refine ⟨stripWs lk.data, List.mem_map_of_mem stripWs hmem, ?_⟩
  rw [hstrip]
  cases hd : lk.data with
  | nil => exact absurd hd hne
  | cons c cs =>
    rw [← hd]
    have : lk.data.isEmpty = false := by rw [hd]; rfl
    rw [this]
    rfl

/-- The characters `append_seen_link` writes for one more link. -/
theorem linksData_cons (l : String) (rest : List String) :
    linksData (l :: rest) = l.data ++ '\n' :: linksData rest := by
  simp [linksData]

/-- Every good link whose record was appended after newline-terminated
contents is loaded back from the resulting file. -/
theorem mem_load_appended :
    ∀ (ls : List String) (content : String), nlTerminated content →
      ∀ lk ∈ ls, goodLink lk = true →
        lk ∈ load_seen_links (String.mk (content.data ++ linksData ls)) := by
  intro ls
  induction ls with
  | nil =>
    intro content _ lk hmem _
    simp at hmem
  | cons l rest ih =>
    intro content hterm lk hmem hgood
    rcases List.mem_cons.1 hmem with rfl | hmem2
    · obtain ⟨_, hnl, _⟩ := goodLink_spec lk hgood
      apply mem_load_of_line lk _ _ hgood
      show lk.data ∈ splitNl (content.data ++ linksData (lk :: rest))
      rw [linksData_cons,
        show content.data ++ (lk.data ++ '\n' :: linksData rest) =
          (content.data ++ lk.data) ++ '\n' :: linksData rest by simp,
        splitNl_append_nl]
      apply List.mem_append_left
      rcases hterm with h0 | ⟨p, hp⟩
      · rw [h0, List.nil_append, splitNl_nlfree lk.data hnl]
        exact List.mem_singleton_self lk.data
      · rw [hp, show (p ++ ['\n']) ++ lk.data = p ++ '\n' :: lk.data by simp,
          splitNl_append_nl, splitNl_nlfree lk.data hnl]
        exact List.mem_append_right _ (List.mem_singleton_self lk.data)
    · have hterm' : nlTerminated (String.mk (content.data ++ (l.data ++ ['\n']))) :=
        Or.inr ⟨content.data ++ l.data, by simp⟩
      have hrec := ih (String.mk (content.data ++ (l.data ++ ['\n']))) hterm' lk hmem2 hgood
      have heq : (content.data ++ (l.data ++ ['\n'])) ++ linksData rest =
          content.data ++ linksData (l :: rest) := by
        rw [linksData_cons]
        simp
      rw [← heq]
      exact hrec

/-- Loading is monotone under appending to newline-terminated contents. -/
theorem load_mono_append (content : String) (extra : List Char) (hterm : nlTerminated content)
    (lk : String) (hmem : lk ∈ load_seen_links content) :
    lk ∈ load_seen_links (String.mk (content.data ++ extra)) := by
  rcases hterm with h0 | ⟨p, hp⟩
  · unfold load_seen_links at hmem
    rw [h0] at hmem
    simp [splitNl, stripWs] at hmem
  · unfold load_seen_links at hmem ⊢
    rw [List.mem_filterMap] at hmem ⊢
    obtain ⟨cs, hcs, hf⟩ := hmem
    rw [hp, show (p ++ ['\n'] : List Char) = p ++ '\n' :: [] by rfl, splitNl_append_nl,
      List.map_append] at hcs
    rcases List.mem_append.1 hcs with hleft | hright
    · refine ⟨cs, ?_, hf⟩
      rw [show (String.mk (content.data ++ extra)).data = content.data ++ extra from rfl, hp,
        show (p ++ ['\n']) ++ extra = p ++ '\n' :: extra by simp, splitNl_append_nl,
        List.map_append]
      exact List.mem_append_left _ hleft
    · exfalso
      simp [splitNl, stripWs] at hright
      rw [hright] at hf
      simp at hf

/-- Loading depends only on the file's character contents. -/
theorem load_congr (a b : String) (h : a.data = b.data) :
    load_seen_links a = load_seen_links b := by
  unfold load_seen_links
  rw [h]

/-- The ledger contents after one run: the initial contents followed by
the records of that run's candidates. -/
theorem runOnce_fst_data (e : ScrapeEnv) (applyOf : Nat → Bool) (content : String) :
    (runOnce e applyOf content).1.data =
      content.data ++ linksData (newLinks (load_seen_links content)
        ((scrape_job_listings e).map Posting.link)) := by
  unfold runOnce
  by_cases hemp : (newLinks (load_seen_links content)
      ((scrape_job_listings e).map Posting.link)).isEmpty = true
  · rw [if_pos hemp]
    rw [List.isEmpty_iff.1 hemp]
    simp [linksData]
  · rw [if_neg hemp]
    exact runLoop_content applyOf _ 0 content (load_seen_links content) 0

/-- C3 (amended): running the pipeline twice with an unchanged remote
listing and an unmodified ledger yields zero candidates on the second
run, provided the initial ledger contents are empty or
newline-terminated and every scraped link round-trips through the
ledger file (non-empty, newline-free, and `strip()`-invariant — true in
particular of the absolute URLs built from root-relative hrefs).
Without those provisos the claim fails, see the counterexample. -/
theorem c3_idempotence_amended (e : ScrapeEnv) (applyOf : Nat → Bool) (content : String)
    (hterm : nlTerminated content)
    (hgood : ∀ lk ∈ (scrape_job_listings e).map Posting.link, goodLink lk = true) :
    secondRunCandidates e applyOf content = [] := by
  have hload : load_seen_links (runOnce e applyOf content).1 =
      load_seen_links (String.mk (content.data ++ linksData (newLinks (load_seen_links content)
        ((scrape_job_listings e).map Posting.link)))) :=
    load_congr _ _ (by rw [runOnce_fst_data])
  have hkey : ∀ lk ∈ (scrape_job_listings e).map Posting.link,
      lk ∈ load_seen_links (runOnce e applyOf content).1 := by
    intro lk hlk
    rw [hload]
    by_cases hin : lk ∈ load_seen_links content
    · exact load_mono_append content _ hterm lk hin
    · have hnew : lk ∈ newLinks (load_seen_links content)
          ((scrape_job_listings e).map Posting.link) := by
        unfold newLinks
        rw [List.mem_filter]
        refine ⟨hlk, ?_⟩
        rw [Bool.not_eq_true']
        cases hc : (load_seen_links content).contains lk with
        | false => rfl
        | true => exact absurd ((contains_iff_mem _ _).1 hc) hin
      exact mem_load_appended _ content hterm lk hnew (hgood lk hlk)
  unfold secondRunCandidates newLinks
  rw [List.filter_eq_nil_iff]
  intro l hl
  rw [(contains_iff_mem _ _).2 (hkey l hl)]
  simp

/-- A remote listing with an anchor whose href " /x" starts with a
space: the stored link does not round-trip through the ledger's
`strip()` on reload. -/
def envSpaced : ScrapeEnv where
  first := some none
  pages := fun p => if p = 1 then some [{ text := "Job", href? := some " /x" }] else none

/-- Counterexample to C3 as stated: with an unchanged remote listing
carrying the href " /x" and an empty initial ledger, the first run
processes the link " /x" and appends it, but `load_seen_links` strips
the stored line to "/x", so the identical second run still selects
" /x" as a candidate — the second run processes one candidate, not
zero. -/
theorem c3_idempotence_counterexample :
    secondRunCandidates envSpaced (fun _ => false) "" = [" /x"] ∧
      secondRunCandidates envSpaced (fun _ => false) "" ≠ [] :=
  ⟨rfl, by decide⟩

/-- A remote listing whose single anchor is root-relative, so its stored
link is a well-behaved absolute URL. -/
def envStable : ScrapeEnv where
  first := some none
  pages := fun p =>
    if p = 1 then some [{ text := "ML Engineer", href? := some "/jobs/7" }] else none

/-- Witness for the amended C3: with an empty ledger and a well-behaved
scraped link, the second run selects no candidates. -/
theorem c3_idempotence_amended_witness :
    secondRunCandidates envStable (fun _ => false) "" = [] :=
  c3_idempotence_amended envStable (fun _ => false) "" (Or.inl rfl) (by decide)
